import Mathlib

/-!
Shallow embedding of the two pipelines of this repository:

* `audacity_poadcast/audacity_controller.py` — a retrying named-pipe
  client (`send`, `recv`) and the fixed command-pipeline driver (`main`).
  The Win32 pipe operations are external; each attempt's outcome is an
  oracle argument (`none` = the open/write succeeded, `some e` = the
  exception raised by that attempt).  Wall-clock time is modelled as
  exact rationals accumulated from the explicit sleeps and per-iteration
  durations.

* `bark/run.py` — the conversation assembler: the filler-clip registry
  builder `ensure_filler_clips`, the pause-insertion policy
  `add_listener_responses`, and the line loop `generate_conversation`.
  An audio segment is a list of frames at one-millisecond resolution
  (pydub's `len`, slicing and concatenation are all in milliseconds);
  a frame carries an abstract sample value and an accumulated gain in
  dB, so that `segment + gain_db` (pydub `apply_gain`) is `addGain`.
  The float constants 0.1, 0.9 and 0.8 are idealised as the exact
  rationals 1/10, 9/10 and 4/5.  Randomness (`random.random`,
  `random.uniform`, index selection of `random.choices`/`random.choice`)
  and external effects (Bark synthesis, reading a wav file) are oracle
  arguments.
-/

namespace Audacity

/-- `TO_PIPE` from the source (the Windows named-pipe path). -/
def TO_PIPE : String := "\\\\.\\pipe\\ToSrvPipe"

/-- `FR_PIPE` from the source. -/
def FR_PIPE : String := "\\\\.\\pipe\\FromSrvPipe"

/-- The message of the `RuntimeError` raised by `send` after five failed
attempts (`f"Unable to write to {TO_PIPE}: {last_exc}"`, minus the emoji
decoration). -/
def transportError (last : Option String) : String :=
  "Unable to write to " ++ TO_PIPE ++ ": " ++ last.getD "None"

/-- Observable trace of one `send` call: how many open+write attempts ran,
how many fixed 0.2 s inter-attempt sleeps ran (one after every failed
attempt, including the fifth), and the outcome. -/
structure SendTrace where
  attemptsMade : Nat
  sleeps : Nat
  result : Except String Unit

/-- The retry loop of `send` (`for _ in range(5): try: ... except: ...`).
`oracle i` is the outcome of attempt `i` (`none` = success).  `remaining`
counts loop iterations left, `made` attempts already made, `last` the last
captured exception. -/
def sendGo (oracle : Nat → Option String) : Nat → Nat → Option String → SendTrace
  | 0, made, last => ⟨made, made, Except.error (transportError last)⟩
  | n + 1, made, _last =>
    match oracle made with
    | none => ⟨made + 1, made, Except.ok ()⟩
    | some e => sendGo oracle n (made + 1) (some e)

/-- `send(cmd)`: up to 5 attempts; the command string itself does not
influence control flow, so the trace is a function of the attempt oracle. -/
def send (oracle : Nat → Option String) : SendTrace :=
  sendGo oracle 5 0 none

/-- One iteration of `recv`'s polling loop, as observed from outside:
`dur` is the wall-clock time the iteration takes (for the exception path
this includes the fixed 0.1 s sleep; for a successful read, the time the
read itself takes), `exc` whether opening/reading raised, and `data` the
chunk read when it did not. -/
structure RecvIter where
  dur : ℚ
  exc : Bool
  data : String

/-- `b"\n" in part` — the chunk just read contains a newline. -/
def hasNL (s : String) : Bool := s.toList.contains '\n'

/-- The `while time.time() - start < timeout` loop of `recv`.  `elapsed` is
the time since `start` at the loop test and `buf` the accumulated buffer.
Returns `some (msg, elapsed-at-return)`; `none` means the supplied list of
iteration observations ran out before the loop finished (insufficient
model fuel, it never happens in the theorems below). -/
def recvGo (timeout : ℚ) : List RecvIter → ℚ → String → Option (String × ℚ)
  | [], elapsed, _ => if timeout ≤ elapsed then some ("", elapsed) else none
  | it :: rest, elapsed, buf =>
    if timeout ≤ elapsed then some ("", elapsed)
    else if it.exc then recvGo timeout rest (elapsed + it.dur) buf
    else
      if hasNL it.data then some ((buf ++ it.data).trim, elapsed)
      else recvGo timeout rest (elapsed + it.dur) (buf ++ it.data)

/-- `recv(timeout)` starting from an empty buffer at time 0. -/
def recv (timeout : ℚ) (iters : List RecvIter) : Option (String × ℚ) :=
  recvGo timeout iters 0 ""

/-- Total duration of the first `n` modelled iterations. -/
def sumDur (iters : List RecvIter) (n : Nat) : ℚ :=
  ((iters.take n).map RecvIter.dur).sum

/-- The fixed command pipeline of `main`: import, select, noise reduction
(profile + reduce), two filter curves, silence truncation, compression,
limiting, loudness normalization, peak normalization, export. -/
def pipelineCmds (inp out : String) : List String :=
  [ "Import2: Filename=\"" ++ inp ++ "\"",
    "SelectAll:",
    "NoiseReduction: Action=GetProfile",
    "NoiseReduction: Action=Reduce NoiseLevel=9 Sensitivity=6 FrequencySmoothing=3 AttackTime=0.03 ReleaseTime=0.2",
    "FilterCurve: Filter=\"Low roll-off for speech\"",
    "FilterCurve: Filter=\"Bass Boost\"",
    "TruncateSilence: Threshold=-40dB Duration=0.5 Action=Truncate Silence=0.3",
    "Compressor: Threshold=-20 NoiseFloor=-40 Ratio=3:1 AttackTime=0.1 ReleaseTime=1 Normalize=True",
    "Limiter: LimitType=SoftLimit InputGain=0 Limit=-3 Hold=10",
    "LoudnessNormalization: TargetLUFS=-16",
    "Normalize: PeakLevel=-3",
    "Export2: Filename=\"" ++ out ++ "\"" ]

/-- What the driver loop left behind: the commands that were actually
written to the pipe (in order) and, when a `send` exhausted its retries,
the `RuntimeError` message that propagated out of the loop. -/
structure DriverTrace where
  sent : List String
  halted : Option String

/-- The `for cmd in pipeline: send(cmd); recv(); time.sleep(0.2)` loop of
`main`.  `sendRes i` is the outcome of the `send` call for the `i`-th
command; `recvOut i` is what `recv()` returned for it (possibly `""` on
timeout) — the loop never inspects it.  A `send` failure is an uncaught
exception: the loop (and everything after it) is abandoned. -/
def runPipeline (sendRes : Nat → Except String Unit) (recvOut : Nat → String) :
    List String → Nat → DriverTrace
  | [], _ => ⟨[], none⟩
  | cmd :: rest, i =>
    match sendRes i with
    | Except.error e => ⟨[], some e⟩
    | Except.ok _ =>
      let _ack := recvOut i
      let t := runPipeline sendRes recvOut rest (i + 1)
      ⟨cmd :: t.sent, t.halted⟩

/-- The driver with each command's `send` expanded to its retry loop:
`attempts i k` is the outcome of attempt `k` of the `send` for command
`i`. -/
def runDriver (attempts : Nat → Nat → Option String) (recvOut : Nat → String)
    (cmds : List String) : DriverTrace :=
  runPipeline (fun i => (send (attempts i)).result) recvOut cmds 0

end Audacity

namespace Bark

/-- One millisecond of audio: an abstract sample value and the gain (dB)
applied to it so far.  pydub's `AudioSegment + g` (apply_gain) becomes a
map over frames; `len`, slicing and `+` between segments are list length,
`take`/`drop` and append, all at millisecond resolution. -/
structure Frame where
  val : Int
  gain : Int
deriving DecidableEq, Repr

/-- An audio segment, one frame per millisecond. -/
abbrev AudioSeg := List Frame

/-- `segment + g` in pydub: apply a gain offset to every frame. -/
def addGain (g : Int) (a : AudioSeg) : AudioSeg :=
  a.map fun fr => ⟨fr.val, fr.gain + g⟩

/-- `AudioSegment.silent(duration=n)`. -/
def silent (n : Nat) : AudioSeg := List.replicate n ⟨0, 0⟩

/-- The keys of the `VOICES` dict, in insertion order. -/
def VOICE_KEYS : List String := ["sandip", "yash"]

/-- `ACKNOWLEDGMENT_PROBABILITY = 0.8` (idealised as 4/5). -/
def ACKNOWLEDGMENT_PROBABILITY : ℚ := 4 / 5

/-- `MIN_SILENCE_FOR_FILLER = 300` ms. -/
def MIN_SILENCE_FOR_FILLER : Nat := 300

/-- `PAUSE_BETWEEN_LINES = 500` ms. -/
def PAUSE_BETWEEN_LINES : Nat := 500

/-- `FILLER_VOLUME_REDUCTION = -8` dB. -/
def FILLER_VOLUME_REDUCTION : Int := -8

/-- One entry of the `FILLERS` catalog. -/
structure FillerSpec where
  text : String
  durLo : ℚ
  durHi : ℚ
  speaker : String
  type : String
deriving DecidableEq, Repr

/-- The `FILLERS` catalog from the source, in order. -/
def FILLERS : List FillerSpec :=
  [ ⟨"hmm", 3/10, 6/10, "any", "acknowledgment"⟩,
    ⟨"yeah", 4/10, 7/10, "any", "acknowledgment"⟩,
    ⟨"right", 4/10, 6/10, "any", "acknowledgment"⟩,
    ⟨"yes", 4/10, 6/10, "any", "acknowledgment"⟩,
    ⟨"aha", 3/10, 5/10, "any", "acknowledgment"⟩,
    ⟨"mm-hmm", 4/10, 7/10, "any", "acknowledgment"⟩,
    ⟨"got it", 5/10, 8/10, "any", "acknowledgment"⟩,
    ⟨"I see", 6/10, 9/10, "any", "acknowledgment"⟩,
    ⟨"that\x27s true", 8/10, 1, "any", "agreement"⟩,
    ⟨"exactly", 6/10, 9/10, "any", "agreement"⟩ ]

/-- `BASE_SCRIPT`, each line as (speaker, text). -/
def BASE_SCRIPT : List (String × String) :=
  [ ("sandip", "Hey Yash, I was reviewing our podcast analytics from last month"),
    ("yash", "Yeah, what were the numbers looking like?"),
    ("sandip", "We got about 15% more listens compared to the previous month"),
    ("yash", "That\x27s really encouraging growth actually"),
    ("sandip", "Right? And the engagement metrics were particularly strong"),
    ("yash", "Which episodes performed the best?"),
    ("sandip", "The one about AI tools and the interview with the startup founder"),
    ("yash", "Makes sense, those were really in-depth discussions"),
    ("sandip", "Exactly, listeners seem to prefer our longer format content"),
    ("yash", "We should plan more of those then"),
    ("sandip", "Definitely, I was thinking we could do a series"),
    ("yash", "That\x27s a great idea, maybe three parts?"),
    ("sandip", "Yeah, we could cover different aspects each week"),
    ("yash", "Should we start planning the topics?"),
    ("sandip", "Let\x27s schedule a brainstorming session for tomorrow"),
    ("yash", "Perfect, I\x27ll bring some research to the meeting") ]

/-- The value of one registry entry: `(filename, filler type, duration)`. -/
structure ClipInfo where
  path : String
  type : String
  dur : ℚ
deriving DecidableEq, Repr

/-- The `filler_clips` dict: an insertion-ordered association list from
`(filler text, speaker)` to the clip record. -/
abbrev Registry := List ((String × String) × ClipInfo)

/-- `key in filler_clips`. -/
def hasKey (r : Registry) (k : String × String) : Bool :=
  r.any fun e => decide (e.1 = k)

/-- `f"fillers/{speaker}{filler[text].replace(' ','')}.wav"`. -/
def fillerFilename (speaker text : String) : String :=
  "fillers/" ++ speaker ++ ((text.toList.filter fun c => c ≠ ' ').asString) ++ ".wav"

/-- The `(filler, speaker)` pairs visited by the two nested loops of
`ensure_filler_clips`, in order (`speakers = list(VOICES.keys()) if
filler["speaker"] == "any" else [filler["speaker"]]`). -/
def fillerPairs : List (FillerSpec × String) :=
  FILLERS.flatMap fun f =>
    (if f.speaker = "any" then VOICE_KEYS else [f.speaker]).map fun s => (f, s)

/-- State threaded through `ensure_filler_clips`: the registry plus the
observable effects — which `(text, speaker)` pairs were actually
synthesised (calls to `generate_audio_clip`) and which files were written
(`write_wav`). -/
structure GenState where
  registry : Registry
  synthCalls : List (String × String)
  writes : List String

/-- The body of the inner loop of `ensure_filler_clips` for one
`(filler, speaker)` pair.  `fail k = true` models the `try` body raising
for that pair (synthesis or write failure): the exception is logged and
the pair skipped.  `durOf k` is the `random.uniform(*duration_range)`
draw.  A pair whose key is already registered is skipped before any
synthesis or write. -/
def ensureStep (fail : String × String → Bool) (durOf : String × String → ℚ)
    (acc : GenState) (p : FillerSpec × String) : GenState :=
  let key := (p.1.text, p.2)
  if hasKey acc.registry key then acc
  else if fail key then acc
  else
    { registry := acc.registry ++ [(key, ⟨fillerFilename p.2 p.1.text, p.1.type, durOf key⟩)],
      synthCalls := acc.synthCalls ++ [key],
      writes := acc.writes ++ [fillerFilename p.2 p.1.text] }

/-- The two nested loops of `ensure_filler_clips`, started from an
arbitrary registry (the source starts from the empty dict; the parameter
lets the theorems speak about an already-populated registry). -/
def ensureFrom (fail : String × String → Bool) (durOf : String × String → ℚ)
    (init : Registry) : GenState :=
  fillerPairs.foldl (ensureStep fail durOf) ⟨init, [], []⟩

/-- `ensure_filler_clips()` itself: the fold from the empty registry. -/
def ensure_filler_clips (fail : String × String → Bool)
    (durOf : String × String → ℚ) : GenState :=
  ensureFrom fail durOf []

/-- `other_speaker = "yash" if main_speaker == "sandip" else "sandip"`. -/
def otherSpeaker (s : String) : String :=
  if s = "sandip" then "yash" else "sandip"

/-- The `suitable_pauses` filter of `add_listener_responses`:
`p[0] > len(main_audio)*0.1 and p[1] < len(main_audio)*0.9 and
(p[1] - p[0]) > MIN_SILENCE_FOR_FILLER`, with the float literals 0.1 and
0.9 idealised as exact rationals and Python's signed subtraction made
explicit by casting to `Int`. -/
def suitablePauses (len : Nat) (pauses : List (Nat × Nat)) : List (Nat × Nat) :=
  pauses.filter fun p =>
    decide ((len : ℚ) * (1/10) < (p.1 : ℚ)) &&
    decide ((p.2 : ℚ) < (len : ℚ) * (9/10)) &&
    decide ((MIN_SILENCE_FOR_FILLER : Int) < (p.2 : Int) - (p.1 : Int))

/-- `available_fillers`: the registry entries voiced by the listener and of
type "acknowledgment", projected to `(path, duration)`, in registry
(= dict insertion) order. -/
def availableFillers (clips : Registry) (other : String) : List (String × ℚ) :=
  (clips.filter fun e => decide (e.1.2 = other ∧ e.2.type = "acknowledgment")).map
    fun e => (e.2.path, e.2.dur)

/-- Python `int()` on a nonnegative-denominator rational: truncation
toward zero (`int(filler_duration * 1000)`). -/
def pyInt (q : ℚ) : Int := q.num / (q.den : Int)

/-- `filler_ms = int(filler_duration * 1000)` (as a width in ms). -/
def fillerMs (dur : ℚ) : Nat := (pyInt (dur * 1000)).toNat

/-- `insert_pos = pause[0] + (pause[1] - pause[0] - filler_ms) // 2`
(evaluated only when the fit check has passed, so the `Nat` subtractions
do not truncate). -/
def insertPos (p : Nat × Nat) (fms : Nat) : Nat :=
  p.1 + (p.2 - p.1 - fms) / 2

/-- The external observations one call of `add_listener_responses`
consumes: the intervals returned by the silence detector (an out-of-scope
black box), the `random.random()` draw, the indices the two random
selections land on (`random.choices` over the suitable pauses — its
weighting is modelled separately by `selectIdx` below — and
`random.choice` over the available fillers), and the wav loader
(`none` = `AudioSegment.from_wav` raised). -/
structure ALROracle where
  pauses : List (Nat × Nat)
  r : ℚ
  pauseIx : Nat
  fillerIx : Nat
  loadWav : String → Option AudioSeg

/-- The pause the weighted selection lands on (an element of the suitable
list whenever that list is nonempty). -/
def chosenPause (len : Nat) (o : ALROracle) : Nat × Nat :=
  let s := suitablePauses len o.pauses
  s.getD (o.pauseIx % s.length) (0, 0)

/-- The filler `random.choice` lands on. -/
def chosenFiller (clips : Registry) (other : String) (o : ALROracle) : String × ℚ :=
  let a := availableFillers clips other
  a.getD (o.fillerIx % a.length) ("", 0)

/-- `add_listener_responses(main_audio, main_speaker, filler_clips)`,
with the oracle carrying every external observation.  Mirrors the source
branch for branch: no pauses or an unlucky coin → unchanged; no suitable
pause → unchanged; no available filler → unchanged; filler does not fit
the pause with the 200 ms buffer → unchanged; loading the wav raises →
unchanged (the `try`/`except` around the splice); otherwise splice the
attenuated filler at the midpoint of the pause. -/
def add_listener_responses (main : AudioSeg) (mainSpeaker : String)
    (clips : Registry) (o : ALROracle) : AudioSeg :=
  let other := otherSpeaker mainSpeaker
  if o.pauses = [] ∨ ACKNOWLEDGMENT_PROBABILITY < o.r then main
  else
    let suitable := suitablePauses main.length o.pauses
    if suitable = [] then main
    else
      let pause := chosenPause main.length o
      let avail := availableFillers clips other
      if avail = [] then main
      else
        let f := chosenFiller clips other o
        let fms := fillerMs f.2
        if (pause.2 : Int) - (pause.1 : Int) < (fms : Int) + 200 then main
        else
          match o.loadWav f.1 with
          | none => main
          | some filler =>
            let ip := insertPos pause fms
            main.take ip ++ addGain FILLER_VOLUME_REDUCTION filler ++ main.drop ip

/-- The per-line external observations of `generate_conversation`:
`synth` is the synthesised line audio (`none` = the `try` body raised
before the append, so the line is skipped), `alr` the observations
consumed by `add_listener_responses` for that line, `jitter` the
`random.randint(-100, 200)` draw for the inter-line gap. -/
structure LineOracle where
  synth : Option AudioSeg
  alr : ALROracle
  jitter : Int

/-- The contribution of one script line to the conversation buffer: empty
when the line failed; otherwise the enhanced audio followed by the jittered
inter-line gap (skipped for lines equal to the script's last line, as in
`if line != BASE_SCRIPT[-1]`). -/
def lineChunk (clips : Registry) (lo : Nat → LineOracle)
    (lastLine : String × String) (line : String × String) (i : Nat) : AudioSeg :=
  match (lo i).synth with
  | none => []
  | some a =>
    add_listener_responses a line.1 clips (lo i).alr ++
      (if line ≠ lastLine then silent (PAUSE_BETWEEN_LINES + (lo i).jitter).toNat else [])

/-- The line loop of `generate_conversation` over a script suffix whose
first line has index `i`. -/
def genConvGo (clips : Registry) (lo : Nat → LineOracle)
    (lastLine : String × String) : List (String × String) → Nat → AudioSeg
  | [], _ => []
  | line :: rest, i =>
    match (lo i).synth with
    | none => genConvGo clips lo lastLine rest (i + 1)
    | some a =>
      add_listener_responses a line.1 clips (lo i).alr ++
        (if line ≠ lastLine then silent (PAUSE_BETWEEN_LINES + (lo i).jitter).toNat else []) ++
        genConvGo clips lo lastLine rest (i + 1)

/-- `generate_conversation(filler_clips)` over `BASE_SCRIPT`. -/
def generate_conversation (clips : Registry) (lo : Nat → LineOracle) : AudioSeg :=
  genConvGo clips lo (BASE_SCRIPT.getLastD ("", "")) BASE_SCRIPT 0

/-- The weight list `[(p[1]-p[0])**1.5 for p in suitable_pauses]` handed to
`random.choices`. -/
noncomputable def pauseWeights (suitable : List (Nat × Nat)) : List ℝ :=
  suitable.map fun p => ((p.2 - p.1 : Nat) : ℝ) ^ (1.5 : ℝ)

/-- Inverse-CDF model of `random.choices(population, weights)`: the CPython
implementation draws `u = random() * total` and bisects the cumulative
weights, i.e. returns the first index whose cumulative weight exceeds
`u`. -/
def selectIdx {α : Type} [LinearOrderedField α] : List α → α → Nat
  | [], _ => 0
  | w :: ws, u => if u < w then 0 else selectIdx ws (u - w) + 1

end Bark

namespace Audacity

/-- If some attempt within the remaining budget succeeds, the retry loop of
`send` returns successfully. -/
theorem sendGo_ok (oracle : Nat → Option String) :
    ∀ (n made : Nat) (last : Option String),
      (∃ i, i < n ∧ oracle (made + i) = none) →
      (sendGo oracle n made last).result = Except.ok () := by
  intro n
  induction n with
  | zero =>
    intro made last h
    obtain ⟨i, hi, _⟩ := h
    exact absurd hi (Nat.not_lt_zero i)
  | succ n ih =>
    intro made last h
    rcases hm : oracle made with _ | e
    · simp [sendGo, hm]
    · obtain ⟨i, hi, hnone⟩ := h
      rcases i with _ | j
      · rw [Nat.add_zero] at hnone
        rw [hnone] at hm
        cases hm
      · have hj : ∃ i, i < n ∧ oracle (made + 1 + i) = none := by
          refine ⟨j, by omega, ?_⟩
          have hrw : made + 1 + j = made + (j + 1) := by omega
          rw [hrw]; exact hnone
        simpa [sendGo, hm] using ih (made + 1) (some e) hj

/-- If every attempt in the remaining budget fails, the retry loop fails and
the error it carries is the exception of the last attempt. -/
theorem sendGo_fail (oracle : Nat → Option String) :
    ∀ (n made : Nat) (last : Option String),
      (∀ i, i < n → oracle (made + i) ≠ none) → 0 < n →
      ∃ e, oracle (made + n - 1) = some e ∧
        (sendGo oracle n made last).result =
          Except.error (transportError (some e)) := by
  intro n
  induction n with
  | zero => intro _ _ _ hpos; exact absurd hpos (by omega)
  | succ n ih =>
    intro made last hall _
    rcases hm : oracle made with _ | e
    · exact absurd hm (by simpa using hall 0 (by omega))
    · rcases Nat.eq_zero_or_pos n with hn | hn
      · subst hn
        exact ⟨e, by simpa using hm, by simp [sendGo, hm]⟩
      · obtain ⟨e2, he2, hres⟩ := ih (made + 1) (some e)
          (fun i hi => by
            have h := hall (i + 1) (by omega)
            have hrw : made + 1 + i = made + (i + 1) := by omega
            rw [hrw]; exact h) hn
        refine ⟨e2, ?_, ?_⟩
        · have hrw : made + (n + 1) - 1 = made + 1 + n - 1 := by omega
          rw [hrw]; exact he2
        · simpa [sendGo, hm] using hres

/-- Book-keeping for the retry loop: the attempt count is bounded by the
budget; a successful run slept once per failed attempt (one fewer than its
attempts); a failed run used the whole budget, sleeping after every
attempt. -/
theorem sendGo_counts (oracle : Nat → Option String) :
    ∀ (n made : Nat) (last : Option String),
      (sendGo oracle n made last).attemptsMade ≤ made + n ∧
      ((sendGo oracle n made last).result = Except.ok () →
        (sendGo oracle n made last).attemptsMade =
          (sendGo oracle n made last).sleeps + 1) ∧
      (∀ e, (sendGo oracle n made last).result = Except.error e →
        (sendGo oracle n made last).attemptsMade = made + n ∧
        (sendGo oracle n made last).sleeps = made + n) := by
  intro n
  induction n with
  | zero =>
    intro made last
    refine ⟨by simp [sendGo], ?_, ?_⟩
    · intro h; exact absurd h (by simp [sendGo])
    · intro e _; simp [sendGo]
  | succ n ih =>
    intro made last
    rcases hm : oracle made with _ | e
    · refine ⟨by simp [sendGo, hm], by simp [sendGo, hm], ?_⟩
      intro e2 h
      exact absurd h (by simp [sendGo, hm])
    · have h := ih (made + 1) (some e)
      have heq : sendGo oracle (n + 1) made last = sendGo oracle n (made + 1) (some e) := by
        simp [sendGo, hm]
      rw [heq]
      refine ⟨by have := h.1; omega, h.2.1, ?_⟩
      intro e2 he2
      have h1 := (h.2.2 e2 he2).1
      have h2 := (h.2.2 e2 he2).2
      omega

/-- C3: `send` makes at most 5 attempts to open the pipe and write the
command; a fixed 0.2 s delay follows every failed attempt (a run that
succeeds made one more attempt than it slept, a fully failed run slept all
5 times); if some attempt among the first 5 succeeds the call returns
successfully; and if all 5 fail, the call fails with the transport error
carrying the last underlying exception (the source raises `RuntimeError`
with the last captured exception in its message; the spec names this
`TransportError`). -/
theorem C3_send_retry_contract (oracle : Nat → Option String) :
    (send oracle).attemptsMade ≤ 5 ∧
    ((send oracle).result = Except.ok () →
      (send oracle).attemptsMade = (send oracle).sleeps + 1) ∧
    (∀ e, (send oracle).result = Except.error e →
      (send oracle).attemptsMade = 5 ∧ (send oracle).sleeps = 5) ∧
    ((∃ i, i < 5 ∧ oracle i = none) → (send oracle).result = Except.ok ()) ∧
    ((∀ i, i < 5 → oracle i ≠ none) →
      ∃ e, oracle 4 = some e ∧
        (send oracle).result = Except.error (transportError (some e))) := by
  have hc := sendGo_counts oracle 5 0 none
  refine ⟨hc.1, hc.2.1, hc.2.2, ?_, ?_⟩
  · intro h
    obtain ⟨i, hi, hn⟩ := h
    exact sendGo_ok oracle 5 0 none ⟨i, hi, by simpa using hn⟩
  · intro h
    have hf := sendGo_fail oracle 5 0 none (fun i hi => by simpa using h i hi) (by omega)
    simpa using hf

/-- Witness for C3: an oracle that fails the first two attempts and then
succeeds makes `send` return successfully. -/
theorem C3_send_retry_contract_witness :
    (send fun i => if i < 2 then some "pipe busy" else none).result =
      Except.ok () :=
  (C3_send_retry_contract _).2.2.2.1 ⟨2, by omega, rfl⟩

/-- If every per-command `send` reports success, the driver loop sends every
command, whatever `recv` returned for each of them. -/
theorem runPipeline_all_ok (sendRes : Nat → Except String Unit)
    (recvOut : Nat → String) (hok : ∀ i, sendRes i = Except.ok ()) :
    ∀ (cmds : List String) (i : Nat),
      runPipeline sendRes recvOut cmds i = ⟨cmds, none⟩ := by
  intro cmds
  induction cmds with
  | nil => intro i; rfl
  | cons c rest ih =>
    intro i
    simp [runPipeline, hok i, ih (i + 1)]

/-- C1, counterexample: the claim is false on the code.  With the `send` of
the very first pipeline command failing all five attempts, the raised
`RuntimeError` propagates out of the loop: nothing is sent, and in
particular the second command `SelectAll:` — a later command of the list —
is never sent, contradicting "every later command in the list is still
sent". -/
theorem C1_send_failure_halts_cex :
    (runDriver (fun _ _ => some "no pipe") (fun _ => "")
        (pipelineCmds "in.wav" "out.wav")).sent = [] ∧
    "SelectAll:" ∈ pipelineCmds "in.wav" "out.wav" ∧
    "SelectAll:" ∉ (runDriver (fun _ _ => some "no pipe") (fun _ => "")
        (pipelineCmds "in.wav" "out.wav")).sent ∧
    (runDriver (fun _ _ => some "no pipe") (fun _ => "")
        (pipelineCmds "in.wav" "out.wav")).halted ≠ none := by
  have h1 : (runDriver (fun _ _ => some "no pipe") (fun _ => "")
      (pipelineCmds "in.wav" "out.wav")).sent = [] := rfl
  refine ⟨h1, by decide, ?_, Option.some_ne_none _⟩
  rw [h1]
  exact List.not_mem_nil _

/-- C1, amended: a `recv` timeout (an unacknowledged command) never halts
the remaining steps — if every command's `send` eventually succeeds within
its five attempts, then every command of the pipeline is sent, whatever
`recv` returned (including the empty "no response" for every command).  A
`send` that exhausts its retries, however, raises and halts the loop (see
the counterexample). -/
theorem C1_recv_timeout_does_not_halt (attempts : Nat → Nat → Option String)
    (recvOut : Nat → String) (inp out : String)
    (h : ∀ i, ∃ k, k < 5 ∧ attempts i k = none) :
    (runDriver attempts recvOut (pipelineCmds inp out)).sent =
      pipelineCmds inp out ∧
    (runDriver attempts recvOut (pipelineCmds inp out)).halted = none := by
  have hok : ∀ i, (send (attempts i)).result = Except.ok () := by
    intro i
    obtain ⟨k, hk, hn⟩ := h i
    exact sendGo_ok (attempts i) 5 0 none ⟨k, hk, by simpa using hn⟩
  have hall := runPipeline_all_ok (fun i => (send (attempts i)).result)
    recvOut hok (pipelineCmds inp out) 0
  unfold runDriver
  rw [hall]
  exact ⟨rfl, rfl⟩

/-- Witness for the amended C1: all sends succeed on their first attempt
while every `recv` yields the empty "no response"; the whole pipeline is
sent. -/
theorem C1_recv_timeout_does_not_halt_witness :
    (runDriver (fun _ _ => none) (fun _ => "")
        (pipelineCmds "a.wav" "b.wav")).sent = pipelineCmds "a.wav" "b.wav" :=
  (C1_recv_timeout_does_not_halt (fun _ _ => none) (fun _ => "") "a.wav" "b.wav"
    (fun _ => ⟨0, by omega, rfl⟩)).1

theorem sumDur_zero (l : List RecvIter) : sumDur l 0 = 0 := rfl

theorem sumDur_nil (n : Nat) : sumDur [] n = 0 := by
  simp [sumDur]

theorem sumDur_succ (it : RecvIter) (rest : List RecvIter) (n : Nat) :
    sumDur (it :: rest) (n + 1) = it.dur + sumDur rest n := by
  simp [sumDur]

/-- If no chunk ever contains a newline, the `recv` loop keeps polling, all
polls start strictly before the timeout, and at the first loop test at or
past the timeout the loop exits returning the empty string. -/
theorem recvGo_no_newline (timeout : ℚ) :
    ∀ (iters : List RecvIter) (elapsed : ℚ) (buf : String),
      (∀ it ∈ iters, hasNL it.data = false) →
      timeout ≤ elapsed + sumDur iters iters.length →
      ∃ n, n ≤ iters.length ∧
        recvGo timeout iters elapsed buf = some ("", elapsed + sumDur iters n) ∧
        timeout ≤ elapsed + sumDur iters n ∧
        ∀ m, m < n → elapsed + sumDur iters m < timeout := by
  intro iters
  induction iters with
  | nil =>
    intro elapsed buf _ ht
    have h0 : timeout ≤ elapsed := by simpa [sumDur_nil] using ht
    refine ⟨0, Nat.le_refl 0, ?_, ?_, ?_⟩
    · simp [recvGo, h0, sumDur_zero]
    · simpa [sumDur_zero] using h0
    · intro m hm; exact absurd hm (Nat.not_lt_zero m)
  | cons it rest ih =>
    intro elapsed buf hnl ht
    by_cases hto : timeout ≤ elapsed
    · refine ⟨0, by omega, ?_, ?_, ?_⟩
      · simp [recvGo, hto, sumDur_zero]
      · simpa [sumDur_zero] using hto
      · intro m hm; exact absurd hm (Nat.not_lt_zero m)
    · have hnl2 : ∀ it2 ∈ rest, hasNL it2.data = false :=
        fun it2 h2 => hnl it2 (List.mem_cons_of_mem it h2)
      have ht2 : timeout ≤ (elapsed + it.dur) + sumDur rest rest.length := by
        have hlen : (it :: rest).length = rest.length + 1 := rfl
        rw [hlen, sumDur_succ, ← add_assoc] at ht
        exact ht
      have hbranch : ∀ buf2,
          ∃ n, n ≤ rest.length ∧
            recvGo timeout rest (elapsed + it.dur) buf2 =
              some ("", (elapsed + it.dur) + sumDur rest n) ∧
            timeout ≤ (elapsed + it.dur) + sumDur rest n ∧
            ∀ m, m < n → (elapsed + it.dur) + sumDur rest m < timeout :=
        fun buf2 => ih (elapsed + it.dur) buf2 hnl2 ht2
      have hlift : ∀ buf2,
          recvGo timeout (it :: rest) elapsed buf =
            recvGo timeout rest (elapsed + it.dur) buf2 →
          ∃ n, n ≤ (it :: rest).length ∧
            recvGo timeout (it :: rest) elapsed buf =
              some ("", elapsed + sumDur (it :: rest) n) ∧
            timeout ≤ elapsed + sumDur (it :: rest) n ∧
            ∀ m, m < n → elapsed + sumDur (it :: rest) m < timeout := by
        intro buf2 hred
        obtain ⟨n, hn, heq, hge, hlt⟩ := hbranch buf2
        refine ⟨n + 1, by simpa using Nat.succ_le_succ hn, ?_, ?_, ?_⟩
        · rw [hred, heq, sumDur_succ, ← add_assoc]
        · rw [sumDur_succ, ← add_assoc]; exact hge
        · intro m hm
          match m with
          | 0 =>
            rw [sumDur_zero]
            simpa using lt_of_not_ge fun hge2 => hto (by linarith)
          | Nat.succ m2 =>
            rw [sumDur_succ, ← add_assoc]
            exact hlt m2 (by omega)
      cases hex : it.exc with
      | true =>
        apply hlift buf
        simp [recvGo, hto, hex]
      | false =>
        apply hlift (buf ++ it.data)
        simp [recvGo, hto, hex, hnl it (List.mem_cons_self it rest)]

/-- C4: if the inbound pipe never yields a newline-terminated payload (and
the modelled iterations cover the timeout window), `recv` returns the empty
string rather than raising; it does so at the first loop test at or past
the configured timeout, and no poll of the pipe starts at or after the
timeout. -/
theorem C4_recv_timeout_returns_empty (timeout : ℚ) (iters : List RecvIter)
    (hnl : ∀ it ∈ iters, hasNL it.data = false)
    (ht : timeout ≤ sumDur iters iters.length) :
    ∃ n, n ≤ iters.length ∧
      recv timeout iters = some ("", sumDur iters n) ∧
      timeout ≤ sumDur iters n ∧
      ∀ m, m < n → sumDur iters m < timeout := by
  have h := recvGo_no_newline timeout iters 0 "" hnl (by simpa using ht)
  simpa [recv] using h

/-- Witness for C4: a half-second timeout against two newline-free
iterations of 0.3 s each. -/
theorem C4_recv_timeout_returns_empty_witness :
    ∃ n, n ≤ (([⟨(3 : ℚ)/10, true, ""⟩, ⟨(3 : ℚ)/10, false, "abc"⟩] :
        List RecvIter)).length ∧
      recv (1/2) [⟨(3 : ℚ)/10, true, ""⟩, ⟨(3 : ℚ)/10, false, "abc"⟩] =
        some ("", sumDur [⟨(3 : ℚ)/10, true, ""⟩, ⟨(3 : ℚ)/10, false, "abc"⟩] n) ∧
      (1 : ℚ)/2 ≤ sumDur [⟨(3 : ℚ)/10, true, ""⟩, ⟨(3 : ℚ)/10, false, "abc"⟩] n ∧
      ∀ m, m < n →
        sumDur [⟨(3 : ℚ)/10, true, ""⟩, ⟨(3 : ℚ)/10, false, "abc"⟩] m < 1/2 :=
  C4_recv_timeout_returns_empty (1/2)
    [⟨(3 : ℚ)/10, true, ""⟩, ⟨(3 : ℚ)/10, false, "abc"⟩]
    (by decide) (by norm_num [sumDur])

end Audacity

namespace Bark

/-- `hasKey` agrees with membership among the registry's keys. -/
theorem hasKey_iff_mem (r : Registry) (k : String × String) :
    hasKey r k = true ↔ k ∈ r.map Prod.fst := by
  simp [hasKey, List.any_eq_true, List.mem_map]

/-- A key in the registry has an entry. -/
theorem exists_entry_of_mem_keys {r : Registry} {k : String × String}
    (h : k ∈ r.map Prod.fst) : ∃ info, (k, info) ∈ r := by
  obtain ⟨e, he, hek⟩ := List.mem_map.mp h
  refine ⟨e.2, ?_⟩
  rw [← hek]
  exact he

/-- When every visited pair's key is already present, the
`ensure_filler_clips` loop is a no-op: no synthesis, no writes, registry
untouched. -/
theorem ensureFoldl_skip (fail : String × String → Bool)
    (durOf : String × String → ℚ) :
    ∀ (ps : List (FillerSpec × String)) (acc : GenState),
      (∀ p ∈ ps, hasKey acc.registry (p.1.text, p.2) = true) →
      ps.foldl (ensureStep fail durOf) acc = acc := by
  intro ps
  induction ps with
  | nil => intro acc _; rfl
  | cons p ps ih =>
    intro acc h
    have hstep : ensureStep fail durOf acc p = acc := by
      simp [ensureStep, h p (List.mem_cons_self p ps)]
    rw [List.foldl_cons, hstep]
    exact ih acc fun q hq => h q (List.mem_cons_of_mem p hq)

/-- The full-state shape of one `ensure_filler_clips` step when the key is
new and the body does not raise. -/
theorem ensureStep_new (fail : String × String → Bool)
    (durOf : String × String → ℚ) (acc : GenState) (p : FillerSpec × String)
    (hk : ¬ hasKey acc.registry (p.1.text, p.2) = true)
    (hf : ¬ fail (p.1.text, p.2) = true) :
    ensureStep fail durOf acc p =
      { registry := acc.registry ++
          [((p.1.text, p.2),
            ⟨fillerFilename p.2 p.1.text, p.1.type, durOf (p.1.text, p.2)⟩)],
        synthCalls := acc.synthCalls ++ [(p.1.text, p.2)],
        writes := acc.writes ++ [fillerFilename p.2 p.1.text] } := by
  simp [ensureStep, hk, hf]

/-- Invariant of the `ensure_filler_clips` loop: registry keys stay
duplicate-free, the synthesised keys stay duplicate-free, and every
synthesised key is registered. -/
theorem ensureFoldl_inv (fail : String × String → Bool)
    (durOf : String × String → ℚ) :
    ∀ (ps : List (FillerSpec × String)) (acc : GenState),
      (acc.registry.map Prod.fst).Nodup →
      acc.synthCalls.Nodup →
      (∀ k ∈ acc.synthCalls, k ∈ acc.registry.map Prod.fst) →
      ((ps.foldl (ensureStep fail durOf) acc).registry.map Prod.fst).Nodup ∧
      (ps.foldl (ensureStep fail durOf) acc).synthCalls.Nodup := by
  intro ps
  induction ps with
  | nil => intro acc h1 h2 _; exact ⟨h1, h2⟩
  | cons p ps ih =>
    intro acc h1 h2 h3
    rw [List.foldl_cons]
    by_cases hk : hasKey acc.registry (p.1.text, p.2) = true
    · rw [show ensureStep fail durOf acc p = acc from by simp [ensureStep, hk]]
      exact ih acc h1 h2 h3
    by_cases hf : fail (p.1.text, p.2) = true
    · rw [show ensureStep fail durOf acc p = acc from by simp [ensureStep, hk, hf]]
      exact ih acc h1 h2 h3
    rw [ensureStep_new fail durOf acc p hk hf]
    have hnotin : (p.1.text, p.2) ∉ acc.registry.map Prod.fst := by
      intro hmem
      exact hk ((hasKey_iff_mem acc.registry (p.1.text, p.2)).mpr hmem)
    apply ih
    · rw [List.map_append]
      simp only [List.map_cons, List.map_nil]
      rw [List.nodup_append]
      exact ⟨h1, List.nodup_singleton _, by simpa using hnotin⟩
    · rw [List.nodup_append]
      refine ⟨h2, List.nodup_singleton _, ?_⟩
      intro a ha ha2
      rw [List.mem_singleton] at ha2
      subst ha2
      exact hnotin (h3 _ ha)
    · intro k hkmem
      rw [List.map_append]
      rcases List.mem_append.mp hkmem with hold | hnew
      · exact List.mem_append_left _ (h3 k hold)
      · exact List.mem_append_right _ (by simpa using hnew)

/-- C2: filler generation is idempotent relative to the registry the loop
reads: when every `(filler text, speaker)` pair it visits is already
registered, the loop makes no synthesis call, writes no file and leaves the
registry unchanged; and within any single run the registry maps each pair
to at most one clip and no pair is synthesised twice (the source rebuilds
its dict from empty on each call, so the populated-registry reading is
about the loop's registry state, `ensureFrom`). -/
theorem C2_filler_generation_idempotent :
    (∀ (fail : String × String → Bool) (durOf : String × String → ℚ)
        (init : Registry),
      (∀ p ∈ fillerPairs, hasKey init (p.1.text, p.2) = true) →
      (ensureFrom fail durOf init).registry = init ∧
      (ensureFrom fail durOf init).synthCalls = [] ∧
      (ensureFrom fail durOf init).writes = []) ∧
    (∀ (fail : String × String → Bool) (durOf : String × String → ℚ)
        (init : Registry),
      (init.map Prod.fst).Nodup →
      ((ensureFrom fail durOf init).registry.map Prod.fst).Nodup ∧
      (ensureFrom fail durOf init).synthCalls.Nodup) := by
  constructor
  · intro fail durOf init h
    have hskip := ensureFoldl_skip fail durOf fillerPairs ⟨init, [], []⟩ h
    unfold ensureFrom
    rw [hskip]
    exact ⟨rfl, rfl, rfl⟩
  · intro fail durOf init h1
    have hinv := ensureFoldl_inv fail durOf fillerPairs ⟨init, [], []⟩ h1
      List.nodup_nil (by intro k hk; cases hk)
    exact hinv

/-- A registry preloaded with one clip for every catalog pair, for the C2
witness. -/
def preloadedRegistry : Registry :=
  fillerPairs.map fun p =>
    ((p.1.text, p.2), ⟨fillerFilename p.2 p.1.text, p.1.type, 1/2⟩)

/-- Witness for C2: with every pair already registered, a re-run makes no
synthesis call, writes nothing and leaves the registry unchanged. -/
theorem C2_filler_generation_idempotent_witness :
    (ensureFrom (fun _ => false) (fun _ => 1/2) preloadedRegistry).registry =
      preloadedRegistry ∧
    (ensureFrom (fun _ => false) (fun _ => 1/2) preloadedRegistry).synthCalls = [] ∧
    (ensureFrom (fun _ => false) (fun _ => 1/2) preloadedRegistry).writes = [] :=
  C2_filler_generation_idempotent.1 (fun _ => false) (fun _ => 1/2)
    preloadedRegistry (by decide)

/-- Registry membership survives the rest of the `ensure_filler_clips`
loop (each step only appends). -/
theorem ensureFoldl_key_mono (fail : String × String → Bool)
    (durOf : String × String → ℚ) :
    ∀ (ps : List (FillerSpec × String)) (acc : GenState) (k : String × String),
      (∃ info, (k, info) ∈ acc.registry) →
      ∃ info, (k, info) ∈ (ps.foldl (ensureStep fail durOf) acc).registry := by
  intro ps
  induction ps with
  | nil => intro acc k h; exact h
  | cons p ps ih =>
    intro acc k h
    rw [List.foldl_cons]
    apply ih
    obtain ⟨info, hmem⟩ := h
    by_cases hk : hasKey acc.registry (p.1.text, p.2) = true
    · rw [show ensureStep fail durOf acc p = acc from by simp [ensureStep, hk]]
      exact ⟨info, hmem⟩
    by_cases hf : fail (p.1.text, p.2) = true
    · rw [show ensureStep fail durOf acc p = acc from by simp [ensureStep, hk, hf]]
      exact ⟨info, hmem⟩
    rw [ensureStep_new fail durOf acc p hk hf]
    exact ⟨info, List.mem_append_left _ hmem⟩

/-- Any visited pair whose body did not raise ends up registered, whatever
happened to the pairs before or after it. -/
theorem ensureFoldl_covers (fail : String × String → Bool)
    (durOf : String × String → ℚ) :
    ∀ (ps : List (FillerSpec × String)) (acc : GenState) (p : FillerSpec × String),
      p ∈ ps → fail (p.1.text, p.2) = false →
      ∃ info, ((p.1.text, p.2), info) ∈
        (ps.foldl (ensureStep fail durOf) acc).registry := by
  intro ps
  induction ps with
  | nil => intro acc p hp _; exact absurd hp (List.not_mem_nil p)
  | cons q ps ih =>
    intro acc p hp hf
    rcases List.mem_cons.mp hp with heq | htail
    · subst heq
      rw [List.foldl_cons]
      apply ensureFoldl_key_mono
      by_cases hk : hasKey acc.registry (p.1.text, p.2) = true
      · rw [show ensureStep fail durOf acc p = acc from by simp [ensureStep, hk]]
        exact exists_entry_of_mem_keys ((hasKey_iff_mem _ _).mp hk)
      · rw [ensureStep_new fail durOf acc p hk (by simp [hf])]
        exact ⟨_, List.mem_append_right _ (List.mem_singleton_self _)⟩
    · rw [List.foldl_cons]
      exact ih (ensureStep fail durOf acc q) p htail hf

/-- C7: a failure on one item is skipped and the loop goes on.  (i) In
`ensure_filler_clips`, every visited pair whose synthesis/write did not
raise is registered, whatever other pairs failed.  (ii) In
`generate_conversation`, a line whose synthesis raised contributes nothing
and the loop continues with the rest unchanged.  (iii) The whole
conversation is the concatenation of the per-line chunks, each depending
only on that line's own outcome — so no line's failure can abort or alter
the others. -/
theorem C7_item_failure_skips_not_aborts :
    (∀ (fail : String × String → Bool) (durOf : String × String → ℚ)
        (init : Registry) (p : FillerSpec × String),
      p ∈ fillerPairs → fail (p.1.text, p.2) = false →
      ∃ info, ((p.1.text, p.2), info) ∈ (ensureFrom fail durOf init).registry) ∧
    (∀ (clips : Registry) (lo : Nat → LineOracle) (lastLine : String × String)
        (line : String × String) (rest : List (String × String)) (i : Nat),
      (lo i).synth = none →
      genConvGo clips lo lastLine (line :: rest) i =
        genConvGo clips lo lastLine rest (i + 1)) ∧
    (∀ (clips : Registry) (lo : Nat → LineOracle) (lastLine : String × String)
        (lines : List (String × String)) (i : Nat),
      genConvGo clips lo lastLine lines i =
        (List.range lines.length).flatMap
          fun j => lineChunk clips lo lastLine (lines.getD j ("", "")) (i + j)) := by
  refine ⟨?_, ?_, ?_⟩
  · intro fail durOf init p hp hf
    exact ensureFoldl_covers fail durOf fillerPairs ⟨init, [], []⟩ p hp hf
  · intro clips lo lastLine line rest i hsyn
    simp [genConvGo, hsyn]
  · intro clips lo lastLine lines
    induction lines with
    | nil => intro i; simp [genConvGo]
    | cons line rest ih =>
      intro i
      have hrange : List.range (line :: rest).length =
          0 :: (List.range rest.length).map Nat.succ := by
        rw [List.length_cons, List.range_succ_eq_map]
      rw [hrange, List.flatMap_cons]
      have htail : ((List.range rest.length).map Nat.succ).flatMap
          (fun j => lineChunk clips lo lastLine ((line :: rest).getD j ("", "")) (i + j)) =
          (List.range rest.length).flatMap
            fun j => lineChunk clips lo lastLine (rest.getD j ("", "")) ((i + 1) + j) := by
        rw [List.flatMap_map]
        congr 1
        funext j
        rw [List.getD_cons_succ, show i + Nat.succ j = i + 1 + j from by omega]
      rw [htail, ← ih (i + 1)]
      cases hsyn : (lo i).synth with
      | none => simp [genConvGo, lineChunk, hsyn]
      | some a => simp [genConvGo, lineChunk, hsyn, List.append_assoc]

/-- Witness for C7: with no failures at all, the first catalog pair
("hmm" by sandip) is registered by the run from the empty registry. -/
theorem C7_item_failure_skips_not_aborts_witness :
    ∃ info, (("hmm", "sandip"), info) ∈
      (ensureFrom (fun _ => false) (fun _ => 1/2) []).registry :=
  C7_item_failure_skips_not_aborts.1 (fun _ => false) (fun _ => 1/2) []
    (⟨"hmm", 3/10, 6/10, "any", "acknowledgment"⟩, "sandip")
    (by simp [fillerPairs, FILLERS, VOICE_KEYS]) rfl

/-- An element picked by index-mod-length out of a nonempty list is a
member of it. -/
theorem getD_mod_mem {α : Type} (l : List α) (i : Nat) (d : α) (h : l ≠ []) :
    l.getD (i % l.length) d ∈ l := by
  have hlen : 0 < l.length := List.length_pos.mpr h
  have hlt : i % l.length < l.length := Nat.mod_lt i hlen
  rw [List.getD_eq_getElem l d hlt]
  exact List.getElem_mem hlt

/-- Unpacking membership in the `suitable_pauses` filter. -/
theorem suitable_mem {len : Nat} {ps : List (Nat × Nat)} {p : Nat × Nat}
    (h : p ∈ suitablePauses len ps) :
    (len : ℚ) * (1/10) < (p.1 : ℚ) ∧ (p.2 : ℚ) < (len : ℚ) * (9/10) ∧
    (MIN_SILENCE_FOR_FILLER : Int) < (p.2 : Int) - (p.1 : Int) ∧ p ∈ ps := by
  have hm := List.mem_filter.mp h
  have hb := hm.2
  simp only [Bool.and_eq_true, decide_eq_true_eq] at hb
  exact ⟨hb.1.1, hb.1.2, hb.2, hm.1⟩

/-- The `Nat`-level consequences of the filter: a suitable pause is longer
than 300 ms and ends inside the segment. -/
theorem suitable_mem_nat {len : Nat} {ps : List (Nat × Nat)} {p : Nat × Nat}
    (h : p ∈ suitablePauses len ps) :
    p.1 + 300 < p.2 ∧ p.2 ≤ len := by
  obtain ⟨h1, h2, h3, _⟩ := suitable_mem h
  constructor
  · have h300 : (300 : Int) < (p.2 : Int) - (p.1 : Int) := by
      simpa [MIN_SILENCE_FOR_FILLER] using h3
    omega
  · have h10 : (10 : ℚ) * (p.2 : ℚ) < 9 * (len : ℚ) := by linarith
    have hc : (10 * p.2 : ℚ) < (9 * len : ℚ) := by linarith
    have hn : 10 * p.2 < 9 * len := by exact_mod_cast hc
    omega

/-- When the suitable list is nonempty, the selected pause is one of the
suitable pauses. -/
theorem chosenPause_mem {len : Nat} {o : ALROracle}
    (h : suitablePauses len o.pauses ≠ []) :
    chosenPause len o ∈ suitablePauses len o.pauses := by
  simp only [chosenPause]
  exact getD_mod_mem _ _ _ h

/-- When the available list is nonempty, the selected filler is one of the
available fillers. -/
theorem chosenFiller_mem {clips : Registry} {other : String} {o : ALROracle}
    (h : availableFillers clips other ≠ []) :
    chosenFiller clips other o ∈ availableFillers clips other := by
  simp only [chosenFiller]
  exact getD_mod_mem _ _ _ h

/-- Every available filler is backed by a registry entry of type
"acknowledgment" voiced by the listener. -/
theorem availableFillers_spec (clips : Registry) (other : String)
    (q : String × ℚ) (h : q ∈ availableFillers clips other) :
    ∃ text, ((text, other), (⟨q.1, "acknowledgment", q.2⟩ : ClipInfo)) ∈ clips := by
  obtain ⟨e, he, heq⟩ := List.mem_map.mp h
  rcases e with ⟨⟨text, spkr⟩, path, typ, dur⟩
  have hp := List.mem_filter.mp he
  have hcond := of_decide_eq_true hp.2
  obtain ⟨hspk, htyp⟩ := hcond
  simp only at hspk htyp
  obtain ⟨hpath, hdur⟩ := Prod.mk.injEq .. |>.mp heq
  subst hspk htyp hpath hdur
  exact ⟨text, hp.1⟩

/-- C5: every candidate that survives the pause filter — hence every pause
that can be selected for insertion — starts no earlier than 0.1·L, ends no
later than 0.9·L and is at least 300 ms long; the selected pause is always
such a candidate; and when no detected pause survives the filter the
segment is returned unmodified. -/
theorem C5_pause_filter_bounds :
    (∀ (len : Nat) (ps : List (Nat × Nat)) (p : Nat × Nat),
      p ∈ suitablePauses len ps →
      (len : ℚ) * (1/10) ≤ (p.1 : ℚ) ∧ (p.2 : ℚ) ≤ (len : ℚ) * (9/10) ∧
      (MIN_SILENCE_FOR_FILLER : Int) ≤ (p.2 : Int) - (p.1 : Int)) ∧
    (∀ (len : Nat) (o : ALROracle), suitablePauses len o.pauses ≠ [] →
      chosenPause len o ∈ suitablePauses len o.pauses) ∧
    (∀ (main : AudioSeg) (spk : String) (clips : Registry) (o : ALROracle),
      suitablePauses main.length o.pauses = [] →
      add_listener_responses main spk clips o = main) := by
  refine ⟨?_, ?_, ?_⟩
  · intro len ps p h
    obtain ⟨h1, h2, h3, _⟩ := suitable_mem h
    exact ⟨le_of_lt h1, le_of_lt h2, le_of_lt h3⟩
  · intro len o h
    exact chosenPause_mem h
  · intro main spk clips o hemp
    by_cases h1 : o.pauses = [] ∨ ACKNOWLEDGMENT_PROBABILITY < o.r
    · simp [add_listener_responses, h1]
    · simp [add_listener_responses, h1, hemp]

/-- Witness for C5: a 5 ms segment whose only detected pause is 1 ms long
has no suitable pause and is returned unmodified. -/
theorem C5_pause_filter_bounds_witness :
    add_listener_responses (silent 5) "sandip" []
      ⟨[(1, 2)], 0, 0, 0, fun _ => none⟩ = silent 5 :=
  C5_pause_filter_bounds.2.2 (silent 5) "sandip" []
    ⟨[(1, 2)], 0, 0, 0, fun _ => none⟩
    (by norm_num [silent, suitablePauses, MIN_SILENCE_FOR_FILLER])

/-- C6: insertion never happens when the chosen pause cannot hold the
filler plus the fixed 200 ms buffer; and when every guard passes, the
result is exactly `[prefix][attenuated filler][suffix]`, spliced at
`pause[0] + (pause[1] - pause[0] - filler_ms) // 2`, which centres the
filler at the temporal midpoint of the pause up to the 1 ms floor-division
rounding (the filler's centre `2·insert_pos + filler_ms` differs from
`pause_start + pause_end` by at most 1). -/
theorem C6_fit_check_and_midpoint_splice :
    (∀ (main : AudioSeg) (spk : String) (clips : Registry) (o : ALROracle),
      ((chosenPause main.length o).2 : Int) - ((chosenPause main.length o).1 : Int) <
          (fillerMs (chosenFiller clips (otherSpeaker spk) o).2 : Int) + 200 →
      add_listener_responses main spk clips o = main) ∧
    (∀ (main : AudioSeg) (spk : String) (clips : Registry) (o : ALROracle)
        (w : AudioSeg),
      ¬ (o.pauses = [] ∨ ACKNOWLEDGMENT_PROBABILITY < o.r) →
      suitablePauses main.length o.pauses ≠ [] →
      availableFillers clips (otherSpeaker spk) ≠ [] →
      (fillerMs (chosenFiller clips (otherSpeaker spk) o).2 : Int) + 200 ≤
        ((chosenPause main.length o).2 : Int) - ((chosenPause main.length o).1 : Int) →
      o.loadWav (chosenFiller clips (otherSpeaker spk) o).1 = some w →
      add_listener_responses main spk clips o =
        main.take (insertPos (chosenPause main.length o)
            (fillerMs (chosenFiller clips (otherSpeaker spk) o).2)) ++
          addGain FILLER_VOLUME_REDUCTION w ++
          main.drop (insertPos (chosenPause main.length o)
            (fillerMs (chosenFiller clips (otherSpeaker spk) o).2)) ∧
      2 * insertPos (chosenPause main.length o)
            (fillerMs (chosenFiller clips (otherSpeaker spk) o).2) +
          fillerMs (chosenFiller clips (otherSpeaker spk) o).2 ≤
        (chosenPause main.length o).1 + (chosenPause main.length o).2 ∧
      (chosenPause main.length o).1 + (chosenPause main.length o).2 ≤
        2 * insertPos (chosenPause main.length o)
            (fillerMs (chosenFiller clips (otherSpeaker spk) o).2) +
          fillerMs (chosenFiller clips (otherSpeaker spk) o).2 + 1) := by
  constructor
  · intro main spk clips o hlt
    by_cases h1 : o.pauses = [] ∨ ACKNOWLEDGMENT_PROBABILITY < o.r
    · simp [add_listener_responses, h1]
    by_cases h2 : suitablePauses main.length o.pauses = []
    · simp [add_listener_responses, h1, h2]
    by_cases h3 : availableFillers clips (otherSpeaker spk) = []
    · simp [add_listener_responses, h1, h2, h3]
    simp [add_listener_responses, h1, h2, h3, hlt]
  · intro main spk clips o w h1 h2 h3 hfit hload
    have hp := suitable_mem_nat (chosenPause_mem h2)
    have hfitn : (chosenPause main.length o).1 +
        fillerMs (chosenFiller clips (otherSpeaker spk) o).2 + 200 ≤
        (chosenPause main.length o).2 := by omega
    refine ⟨?_, ?_, ?_⟩
    · simp only [add_listener_responses]
      rw [if_neg h1, if_neg h2, if_neg h3, if_neg (not_lt.mpr hfit), hload]
    · simp only [insertPos]
      omega
    · simp only [insertPos]
      omega

/-- Concrete registry for the C6 witness: one acknowledgment filler voiced
by yash. -/
def c6Clips : Registry :=
  [(("yeah", "yash"), ⟨"fillers/yashyeah.wav", "acknowledgment", 1/2⟩)]

/-- Concrete oracle for the C6 witness: one 900 ms pause in a 2000 ms
segment, a lucky coin, and a loader returning a 500 ms clip. -/
def c6Oracle : ALROracle :=
  ⟨[(300, 1200)], 0, 0, 0, fun _ => some (silent 500)⟩

/-- Witness for C6 at a concrete input: a sandip line of 2000 ms with a
pause (300, 1200), a 0.5 s yash acknowledgment clip; every guard passes and
the splice equation and midpoint bounds hold. -/
theorem C6_fit_check_and_midpoint_splice_witness :
    add_listener_responses (silent 2000) "sandip" c6Clips c6Oracle =
      (silent 2000).take (insertPos (chosenPause (silent 2000).length c6Oracle)
          (fillerMs (chosenFiller c6Clips (otherSpeaker "sandip") c6Oracle).2)) ++
        addGain FILLER_VOLUME_REDUCTION (silent 500) ++
        (silent 2000).drop (insertPos (chosenPause (silent 2000).length c6Oracle)
          (fillerMs (chosenFiller c6Clips (otherSpeaker "sandip") c6Oracle).2)) ∧
    2 * insertPos (chosenPause (silent 2000).length c6Oracle)
          (fillerMs (chosenFiller c6Clips (otherSpeaker "sandip") c6Oracle).2) +
        fillerMs (chosenFiller c6Clips (otherSpeaker "sandip") c6Oracle).2 ≤
      (chosenPause (silent 2000).length c6Oracle).1 +
        (chosenPause (silent 2000).length c6Oracle).2 ∧
    (chosenPause (silent 2000).length c6Oracle).1 +
        (chosenPause (silent 2000).length c6Oracle).2 ≤
      2 * insertPos (chosenPause (silent 2000).length c6Oracle)
          (fillerMs (chosenFiller c6Clips (otherSpeaker "sandip") c6Oracle).2) +
        fillerMs (chosenFiller c6Clips (otherSpeaker "sandip") c6Oracle).2 + 1 :=
  C6_fit_check_and_midpoint_splice.2 (silent 2000) "sandip" c6Clips c6Oracle
    (silent 500)
    (by norm_num [c6Oracle, ACKNOWLEDGMENT_PROBABILITY])
    (by norm_num [silent, c6Oracle, suitablePauses, MIN_SILENCE_FOR_FILLER])
    (by simp [c6Clips, availableFillers, otherSpeaker])
    (by norm_num [c6Clips, c6Oracle, chosenPause, chosenFiller, suitablePauses,
      availableFillers, otherSpeaker, silent, fillerMs, pyInt,
      MIN_SILENCE_FOR_FILLER])
    rfl

/-- C9: `add_listener_responses` either returns its input unchanged or
returns the input with exactly one clip spliced in at an interior
position: the result is `take ip ++ w ++ drop ip` for some `ip ≤ len` and
its length is the input length plus the spliced clip's length — never a
shortening, reordering or partial modification. -/
theorem C9_unchanged_or_single_splice (main : AudioSeg) (spk : String)
    (clips : Registry) (o : ALROracle) :
    add_listener_responses main spk clips o = main ∨
    ∃ ip w, ip ≤ main.length ∧
      add_listener_responses main spk clips o = main.take ip ++ w ++ main.drop ip ∧
      (add_listener_responses main spk clips o).length = main.length + w.length := by
  by_cases h1 : o.pauses = [] ∨ ACKNOWLEDGMENT_PROBABILITY < o.r
  · left; simp [add_listener_responses, h1]
  by_cases h2 : suitablePauses main.length o.pauses = []
  · left; simp [add_listener_responses, h1, h2]
  by_cases h3 : availableFillers clips (otherSpeaker spk) = []
  · left; simp [add_listener_responses, h1, h2, h3]
  by_cases h4 : ((chosenPause main.length o).2 : Int) - ((chosenPause main.length o).1 : Int) <
      (fillerMs (chosenFiller clips (otherSpeaker spk) o).2 : Int) + 200
  · left; simp [add_listener_responses, h1, h2, h3, h4]
  rcases hload : o.loadWav (chosenFiller clips (otherSpeaker spk) o).1 with _ | w
  · left
    simp only [add_listener_responses]
    rw [if_neg h1, if_neg h2, if_neg h3, if_neg h4, hload]
  · right
    have hp := suitable_mem_nat (chosenPause_mem h2)
    have hip : insertPos (chosenPause main.length o)
        (fillerMs (chosenFiller clips (otherSpeaker spk) o).2) ≤ main.length := by
      simp only [insertPos]
      omega
    have heq : add_listener_responses main spk clips o =
        main.take (insertPos (chosenPause main.length o)
            (fillerMs (chosenFiller clips (otherSpeaker spk) o).2)) ++
          addGain FILLER_VOLUME_REDUCTION w ++
          main.drop (insertPos (chosenPause main.length o)
            (fillerMs (chosenFiller clips (otherSpeaker spk) o).2)) := by
      simp only [add_listener_responses]
      rw [if_neg h1, if_neg h2, if_neg h3, if_neg h4, hload]
    refine ⟨_, addGain FILLER_VOLUME_REDUCTION w, hip, heq, ?_⟩
    rw [heq]
    simp only [List.length_append, List.length_take, List.length_drop, addGain,
      List.length_map]
    omega

/-- When every guard of `add_listener_responses` passes, the call returns
the splice of the attenuated loaded clip. -/
theorem alr_splice_eq (main : AudioSeg) (spk : String) (clips : Registry)
    (o : ALROracle) (w : AudioSeg)
    (h1 : ¬ (o.pauses = [] ∨ ACKNOWLEDGMENT_PROBABILITY < o.r))
    (h2 : suitablePauses main.length o.pauses ≠ [])
    (h3 : availableFillers clips (otherSpeaker spk) ≠ [])
    (h4 : ¬ (((chosenPause main.length o).2 : Int) - ((chosenPause main.length o).1 : Int) <
      (fillerMs (chosenFiller clips (otherSpeaker spk) o).2 : Int) + 200))
    (hload : o.loadWav (chosenFiller clips (otherSpeaker spk) o).1 = some w) :
    add_listener_responses main spk clips o =
      main.take (insertPos (chosenPause main.length o)
          (fillerMs (chosenFiller clips (otherSpeaker spk) o).2)) ++
        addGain FILLER_VOLUME_REDUCTION w ++
        main.drop (insertPos (chosenPause main.length o)
          (fillerMs (chosenFiller clips (otherSpeaker spk) o).2)) := by
  simp only [add_listener_responses]
  rw [if_neg h1, if_neg h2, if_neg h3, if_neg h4, hload]

/-- When every guard passes and the loaded clip is nonempty, the call does
modify the segment (the result is strictly longer). -/
theorem alr_ne_main (main : AudioSeg) (spk : String) (clips : Registry)
    (o : ALROracle) (w : AudioSeg)
    (h1 : ¬ (o.pauses = [] ∨ ACKNOWLEDGMENT_PROBABILITY < o.r))
    (h2 : suitablePauses main.length o.pauses ≠ [])
    (h3 : availableFillers clips (otherSpeaker spk) ≠ [])
    (h4 : ¬ (((chosenPause main.length o).2 : Int) - ((chosenPause main.length o).1 : Int) <
      (fillerMs (chosenFiller clips (otherSpeaker spk) o).2 : Int) + 200))
    (hload : o.loadWav (chosenFiller clips (otherSpeaker spk) o).1 = some w)
    (hw : w ≠ []) :
    add_listener_responses main spk clips o ≠ main := by
  have heq := alr_splice_eq main spk clips o w h1 h2 h3 h4 hload
  intro hcontra
  rw [heq] at hcontra
  have hlen := congrArg List.length hcontra
  simp only [List.length_append, List.length_take, List.length_drop, addGain,
    List.length_map] at hlen
  have hw2 : 0 < w.length := List.length_pos.mpr hw
  omega

/-- The registry and effects of a failure-free `ensure_filler_clips` run
(the C10 concrete run). -/
def noFailRun : GenState := ensure_filler_clips (fun _ => false) (fun _ => 1/2)

/-- The files the "agreement"-type catalog entries are written to. -/
def agreementPaths : List String :=
  ["fillers/sandipthat\x27strue.wav", "fillers/yashthat\x27strue.wav",
   "fillers/sandipexactly.wav", "fillers/yashexactly.wav"]

/-- C10: (i) whenever `add_listener_responses` modifies the segment, the
selected filler is backed by a registry entry of type "acknowledgment"
voiced by the speaker other than the current line's speaker; (ii) in a
failure-free run the "agreement" catalog entries ("that's true",
"exactly") are registered for both speakers and their files are written,
their recorded type is "agreement", and no agreement file ever appears in
the selection pool of available fillers of any listener — so they are never
selected for insertion. -/
theorem C10_only_other_speaker_acknowledgments :
    (∀ (main : AudioSeg) (spk : String) (clips : Registry) (o : ALROracle),
      add_listener_responses main spk clips o ≠ main →
      ∃ text, ((text, otherSpeaker spk),
        (⟨(chosenFiller clips (otherSpeaker spk) o).1, "acknowledgment",
          (chosenFiller clips (otherSpeaker spk) o).2⟩ : ClipInfo)) ∈ clips) ∧
    (("that\x27s true", "sandip") ∈ noFailRun.registry.map Prod.fst ∧
     ("that\x27s true", "yash") ∈ noFailRun.registry.map Prod.fst ∧
     ("exactly", "sandip") ∈ noFailRun.registry.map Prod.fst ∧
     ("exactly", "yash") ∈ noFailRun.registry.map Prod.fst) ∧
    (∀ path ∈ agreementPaths, path ∈ noFailRun.writes) ∧
    ((noFailRun.registry.filter fun e =>
        decide (e.1.1 = "that\x27s true" ∨ e.1.1 = "exactly")).map
          (fun e => e.2.type) =
      ["agreement", "agreement", "agreement", "agreement"]) ∧
    (∀ (s : String) (q : String × ℚ),
      q ∈ availableFillers noFailRun.registry s → q.1 ∉ agreementPaths) := by
  refine ⟨?_, by decide, by decide, by decide, ?_⟩
  · intro main spk clips o hne
    by_cases h1 : o.pauses = [] ∨ ACKNOWLEDGMENT_PROBABILITY < o.r
    · exact absurd (by simp [add_listener_responses, h1]) hne
    by_cases h2 : suitablePauses main.length o.pauses = []
    · exact absurd (by simp [add_listener_responses, h1, h2]) hne
    by_cases h3 : availableFillers clips (otherSpeaker spk) = []
    · exact absurd (by simp [add_listener_responses, h1, h2, h3]) hne
    exact availableFillers_spec clips (otherSpeaker spk) _ (chosenFiller_mem h3)
  · intro s q hq
    have hackpaths : ∀ e ∈ noFailRun.registry,
        e.2.type = "acknowledgment" → e.2.path ∉ agreementPaths := by decide
    obtain ⟨e, he, heq⟩ := List.mem_map.mp hq
    have hp := List.mem_filter.mp he
    have hcond := of_decide_eq_true hp.2
    have hq1 : q.1 = e.2.path := by rw [← heq]
    rw [hq1]
    exact hackpaths e hp.1 hcond.2

/-- Concrete registry for the C10 witness: one yash acknowledgment. -/
def c10Clips : Registry :=
  [(("hmm", "yash"), ⟨"fillers/yashhmm.wav", "acknowledgment", 1/2⟩)]

/-- Concrete oracle for the C10 witness. -/
def c10Oracle : ALROracle :=
  ⟨[(300, 1200)], 0, 0, 0, fun _ => some (silent 500)⟩

/-- Witness for C10: on a concrete modified segment, the selected filler is
backed by an acknowledgment entry voiced by the other speaker. -/
theorem C10_only_other_speaker_acknowledgments_witness :
    ∃ text, ((text, otherSpeaker "sandip"),
      (⟨(chosenFiller c10Clips (otherSpeaker "sandip") c10Oracle).1,
        "acknowledgment",
        (chosenFiller c10Clips (otherSpeaker "sandip") c10Oracle).2⟩ :
          ClipInfo)) ∈ c10Clips :=
  C10_only_other_speaker_acknowledgments.1 (silent 2000) "sandip" c10Clips
    c10Oracle
    (alr_ne_main (silent 2000) "sandip" c10Clips c10Oracle (silent 500)
      (by norm_num [c10Oracle, ACKNOWLEDGMENT_PROBABILITY])
      (by norm_num [silent, c10Oracle, suitablePauses, MIN_SILENCE_FOR_FILLER])
      (by simp [c10Clips, availableFillers, otherSpeaker])
      (by norm_num [c10Clips, c10Oracle, chosenPause, chosenFiller,
        suitablePauses, availableFillers, otherSpeaker, silent, fillerMs,
        pyInt, MIN_SILENCE_FOR_FILLER])
      rfl
      (List.ne_nil_of_length_pos
        (by simp only [silent, List.length_replicate]; norm_num)))

/-- Taking a prefix of a nonnegative list never exceeds the full sum. -/
theorem sum_take_le_sum {ws : List ℝ} (h : ∀ x ∈ ws, 0 ≤ x) (n : Nat) :
    (ws.take n).sum ≤ ws.sum := by
  conv_rhs => rw [← List.take_append_drop n ws]
  rw [List.sum_append]
  have hd : 0 ≤ (ws.drop n).sum :=
    List.sum_nonneg fun x hx => h x (List.drop_subset n ws hx)
  linarith

/-- One more element of a prefix adds exactly the element at that index. -/
theorem sum_take_succ_getD : ∀ (ws : List ℝ) (i : Nat), i < ws.length →
    (ws.take (i + 1)).sum = (ws.take i).sum + ws.getD i 0 := by
  intro ws
  induction ws with
  | nil => intro i hi; exact absurd hi (by simp)
  | cons w ws ih =>
    intro i hi
    cases i with
    | zero => simp
    | succ i =>
      have hi2 : i < ws.length := by simpa using hi
      simp only [List.take_succ_cons, List.sum_cons, List.getD_cons_succ]
      rw [ih i hi2]
      ring

/-- The inverse-CDF selection over positive weights partitions `[0, total)`
into consecutive intervals: the draws selecting index `i` form exactly
`[cum_before_i, cum_through_i)`. -/
theorem selectIdx_interval :
    ∀ (ws : List ℝ), (∀ w ∈ ws, 0 < w) →
      ∀ i, i < ws.length →
        {u : ℝ | 0 ≤ u ∧ u < ws.sum ∧ selectIdx ws u = i} =
          Set.Ico ((ws.take i).sum) ((ws.take (i + 1)).sum) := by
  intro ws
  induction ws with
  | nil => intro _ i hi; exact absurd hi (by simp)
  | cons w ws ih =>
    intro hw i hi
    have hw0 : 0 < w := hw w (List.mem_cons_self w ws)
    have hws : ∀ x ∈ ws, 0 < x := fun x hx => hw x (List.mem_cons_of_mem w hx)
    have hsum : 0 ≤ ws.sum := List.sum_nonneg fun x hx => le_of_lt (hws x hx)
    have htk : ∀ n, 0 ≤ (ws.take n).sum :=
      fun n => List.sum_nonneg fun x hx => le_of_lt (hws x (List.take_subset n ws hx))
    cases i with
    | zero =>
      ext u
      simp only [Set.mem_setOf_eq, Set.mem_Ico, List.sum_cons, List.take_zero,
        List.sum_nil, List.take_succ_cons]
      constructor
      · rintro ⟨h0, _, hsel⟩
        refine ⟨h0, ?_⟩
        by_cases hu : u < w
        · simpa using hu
        · simp [selectIdx, hu] at hsel
      · rintro ⟨h0, hub⟩
        have hu : u < w := by simpa using hub
        exact ⟨h0, by linarith, by simp [selectIdx, hu]⟩
    | succ i =>
      have hi2 : i < ws.length := by simpa using hi
      have hIH := ih hws i hi2
      ext u
      simp only [Set.mem_setOf_eq, Set.mem_Ico, List.sum_cons,
        List.take_succ_cons]
      constructor
      · rintro ⟨h0, hlt, hsel⟩
        by_cases hu : u < w
        · simp [selectIdx, hu] at hsel
        · have hsel2 : selectIdx ws (u - w) = i := by
            have h := hsel
            simp [selectIdx, hu] at h
            exact h
          have hmem : (u - w) ∈ {v : ℝ | 0 ≤ v ∧ v < ws.sum ∧ selectIdx ws v = i} :=
            ⟨by linarith [not_lt.mp hu], by linarith, hsel2⟩
          rw [hIH] at hmem
          obtain ⟨hlo, hhi⟩ := hmem
          constructor
          · linarith
          · linarith
      · rintro ⟨hlo, hhi⟩
        have hwle : w ≤ u := by
          have := htk i
          linarith
        have hmem : (u - w) ∈ Set.Ico ((ws.take i).sum) ((ws.take (i + 1)).sum) :=
          ⟨by linarith, by linarith⟩
        rw [← hIH] at hmem
        obtain ⟨h0, hub, hsel⟩ := hmem
        refine ⟨by linarith, by linarith, ?_⟩
        simp [selectIdx, not_lt.mpr hwle, hsel]

/-- Every weight of a suitable-pause list is positive. -/
theorem pauseWeights_pos (len : Nat) (ps : List (Nat × Nat)) :
    ∀ w ∈ pauseWeights (suitablePauses len ps), 0 < w := by
  intro w hw
  obtain ⟨p, hp, hpw⟩ := List.mem_map.mp hw
  have hlen := (suitable_mem_nat hp).1
  have hpos : (0 : ℝ) < ((p.2 - p.1 : Nat) : ℝ) := by
    have : 0 < p.2 - p.1 := by omega
    exact_mod_cast this
  rw [← hpw]
  exact Real.rpow_pos_of_pos hpos _

/-- C8: `random.choices` draws `u` uniformly from `[0, total)` and bisects
the cumulative weights; over the weight list the code builds —
`(end - start) ** 1.5` per suitable pause — the set of draws selecting the
`i`-th suitable pause has Lebesgue measure exactly that pause's weight, so
each pause is chosen with probability proportional to `(end-start)^1.5`;
and the weight map is strictly monotone in the pause length, so longer
pauses are disproportionately favored. -/
theorem C8_weighted_pause_selection :
    (∀ (len : Nat) (ps : List (Nat × Nat)) (i : Nat),
      i < (suitablePauses len ps).length →
      MeasureTheory.volume
          {u : ℝ | 0 ≤ u ∧ u < (pauseWeights (suitablePauses len ps)).sum ∧
            selectIdx (pauseWeights (suitablePauses len ps)) u = i} =
        ENNReal.ofReal ((pauseWeights (suitablePauses len ps)).getD i 0)) ∧
    (∀ (len : Nat) (ps : List (Nat × Nat)) (p q : Nat × Nat),
      p ∈ suitablePauses len ps → q ∈ suitablePauses len ps →
      p.2 - p.1 < q.2 - q.1 →
      ((p.2 - p.1 : Nat) : ℝ) ^ (1.5 : ℝ) < ((q.2 - q.1 : Nat) : ℝ) ^ (1.5 : ℝ)) := by
  constructor
  · intro len ps i hi
    have hlen : i < (pauseWeights (suitablePauses len ps)).length := by
      simpa [pauseWeights] using hi
    rw [selectIdx_interval (pauseWeights (suitablePauses len ps))
      (pauseWeights_pos len ps) i hlen]
    rw [Real.volume_Ico, sum_take_succ_getD _ i hlen]
    ring_nf
  · intro len ps p q _ _ hlt
    exact Real.rpow_lt_rpow (by exact_mod_cast Nat.zero_le _)
      (by exact_mod_cast hlt) (by norm_num)

/-- Witness for C8: a 1000 ms segment with two suitable pauses of 500 ms
and 560 ms; the theorem applies at index 0. -/
theorem C8_weighted_pause_selection_witness :
    MeasureTheory.volume
        {u : ℝ | 0 ≤ u ∧
          u < (pauseWeights (suitablePauses 1000 [(150, 650), (200, 760)])).sum ∧
          selectIdx (pauseWeights (suitablePauses 1000 [(150, 650), (200, 760)])) u = 0} =
      ENNReal.ofReal
        ((pauseWeights (suitablePauses 1000 [(150, 650), (200, 760)])).getD 0 0) :=
  C8_weighted_pause_selection.1 1000 [(150, 650), (200, 760)] 0
    (by norm_num [suitablePauses, MIN_SILENCE_FOR_FILLER])

end Bark
